import Mathlib

/-!
Verification of the LMSR pricing engine of the prediction-market frontend.

The repository contains two variants of the calculation module:

* namespace `MC`  — `src/src/utils/market-calculations.ts` (`MarketCalculations`):
  direct log-sum-exp cost, integer binary-search buy quoter with a BigInt
  ceiling-division fee, guard-based sell quoter with no fee deduction.
* namespace `P13` — `src/unnamed/part_013` (`MarketCalculations`):
  max-subtracted log-sum-exp cost and softmax prices, Newton buy quoter with a
  multiplicative fee netting, closed-form sell quoter with a ceiling fee.

JavaScript `number` arithmetic is embedded as real arithmetic (`ℝ`), `bigint`
as `ℤ` (JS `BigInt` division truncates toward zero, i.e. `Int.tdiv`);
`Math.floor`/`Math.ceil` are `Int.floor`/`Int.ceil`.
-/

/-- Output record of the pricing engine (`MarketPrices` in `types/market`). -/
structure MarketPrices where
  yesPrice : ℝ
  noPrice : ℝ

/-- Output record of the impact analyzer (`MarketImpact` in `types/market`). -/
structure MarketImpact where
  priceImpact : ℝ
  newPrice : ℝ
  slippage : ℝ

namespace MC

/-- LMSR cost function, `lmsrCost` of `market-calculations.ts`:
`b * ln(exp(qYes/b) + exp(qNo/b))`, evaluated directly. -/
noncomputable def lmsrCost (qYes qNo b : ℝ) : ℝ :=
  b * Real.log (Real.exp (qYes / b) + Real.exp (qNo / b))

/-- LMSR YES price, `lmsrPriceYes`: `exp(qYes/b) / (exp(qYes/b) + exp(qNo/b))`. -/
noncomputable def lmsrPriceYes (qYes qNo b : ℝ) : ℝ :=
  Real.exp (qYes / b) / (Real.exp (qYes / b) + Real.exp (qNo / b))

/-- LMSR NO price, `lmsrPriceNo`: `1 - lmsrPriceYes`. -/
noncomputable def lmsrPriceNo (qYes qNo b : ℝ) : ℝ :=
  1 - lmsrPriceYes qYes qNo b

/-- Cost to buy `deltaYes` YES shares, `lmsrBuyYesQuote`. -/
noncomputable def lmsrBuyYesQuote (qYes qNo b deltaYes : ℝ) : ℝ :=
  lmsrCost (qYes + deltaYes) qNo b - lmsrCost qYes qNo b

/-- Cost to buy `deltaNo` NO shares, `lmsrBuyNoQuote`. -/
noncomputable def lmsrBuyNoQuote (qYes qNo b deltaNo : ℝ) : ℝ :=
  lmsrCost qYes (qNo + deltaNo) b - lmsrCost qYes qNo b

/-- Payout for selling `sYes` YES shares, `lmsrSellYesQuote`:
the guard `if (sYes > qYes) return 0` is the overselling branch. -/
noncomputable def lmsrSellYesQuote (qYes qNo b sYes : ℝ) : ℝ :=
  if sYes > qYes then 0
  else lmsrCost qYes qNo b - lmsrCost (qYes - sYes) qNo b

/-- Payout for selling `sNo` NO shares, `lmsrSellNoQuote`. -/
noncomputable def lmsrSellNoQuote (qYes qNo b sNo : ℝ) : ℝ :=
  if sNo > qNo then 0
  else lmsrCost qYes qNo b - lmsrCost qYes (qNo - sNo) b

/-- Current market prices, `calculatePrices` of `market-calculations.ts`:
the `(0, 0)` state is special-cased to `(0.5, 0.5)`. -/
noncomputable def calculatePrices (yesLiquidity noLiquidity b : ℤ) : MarketPrices :=
  if (yesLiquidity : ℝ) = 0 ∧ (noLiquidity : ℝ) = 0 then ⟨1/2, 1/2⟩
  else
    ⟨lmsrPriceYes (yesLiquidity : ℝ) (noLiquidity : ℝ) (b : ℝ),
     lmsrPriceNo (yesLiquidity : ℝ) (noLiquidity : ℝ) (b : ℝ)⟩

/-- BigInt fee of `calculateSharesForBet`, lines 86-88:
`(betAmount * FEE_RATE + FEE_BASIS_POINTS - 1n) / FEE_BASIS_POINTS`
with `FEE_RATE = 100`, `FEE_BASIS_POINTS = 10000` (BigInt `/` truncates). -/
def betFee (betAmount : ℤ) : ℤ :=
  Int.tdiv (betAmount * 100 + 10000 - 1) 10000

/-- Fee-netted spend of `calculateSharesForBet`:
`betAmount = BigInt(Math.floor(amount))`, `netAmount = betAmount - fee`. -/
noncomputable def netAmount (amount : ℝ) : ℤ :=
  ⌊amount⌋ - betFee ⌊amount⌋

/-- In-loop quote of `calculateSharesForBet`: YES cost when `betType === 1`,
NO cost otherwise. -/
noncomputable def buyQuote (betType : ℕ) (yesLiquidity noLiquidity b mid : ℤ) : ℝ :=
  if betType = 1 then
    lmsrBuyYesQuote (yesLiquidity : ℝ) (noLiquidity : ℝ) (b : ℝ) (mid : ℝ)
  else
    lmsrBuyNoQuote (yesLiquidity : ℝ) (noLiquidity : ℝ) (b : ℝ) (mid : ℝ)

/-- Binary-search loop of `calculateSharesForBet`:
`while (lo < hi) { mid = floor((lo+hi+1)/2); if quote(mid) <= net then lo = mid
else hi = mid - 1 }`. -/
noncomputable def searchLoop (quote : ℤ → ℝ) (net : ℝ) (lo hi : ℤ) : ℤ :=
  if h : lo < hi then
    if quote ((lo + hi + 1) / 2) ≤ net then
      searchLoop quote net ((lo + hi + 1) / 2) hi
    else
      searchLoop quote net lo ((lo + hi + 1) / 2 - 1)
  else lo
termination_by (hi - lo).toNat
decreasing_by
  · omega
  · omega

/-- Buy quoter of `market-calculations.ts` (`calculateSharesForBet`): binary
search for shares over `[0, yesLiquidity + noLiquidity]` against the fee-netted
spend. -/
noncomputable def calculateSharesForBet (betType : ℕ) (amount : ℝ)
    (yesLiquidity noLiquidity b : ℤ) : ℤ :=
  searchLoop (buyQuote betType yesLiquidity noLiquidity b)
    ((netAmount amount : ℤ) : ℝ) 0 (yesLiquidity + noLiquidity)

/-- Sell quoter of `market-calculations.ts` (`calculateAmountForShares`):
returns the gross LMSR payout, with no fee deduction. -/
noncomputable def calculateAmountForShares (sellType : ℕ) (shares : ℝ)
    (yesLiquidity noLiquidity b : ℤ) : ℝ :=
  if sellType = 1 then
    lmsrSellYesQuote (yesLiquidity : ℝ) (noLiquidity : ℝ) (b : ℝ) shares
  else
    lmsrSellNoQuote (yesLiquidity : ℝ) (noLiquidity : ℝ) (b : ℝ) shares

/-- Fee helper `calculateFees`: `Math.ceil(amount * FEE_RATE / FEE_BASIS_POINTS)`. -/
noncomputable def calculateFees (amount : ℝ) : ℤ :=
  ⌈amount * 100 / 10000⌉

/-- Impact analyzer of `market-calculations.ts` (`calculateMarketImpact`). -/
noncomputable def calculateMarketImpact (betType : ℕ) (amount : ℝ)
    (yesLiquidity noLiquidity b : ℤ) : MarketImpact :=
  let currentPrices := calculatePrices yesLiquidity noLiquidity b
  let currentPrice := if betType = 1 then currentPrices.yesPrice else currentPrices.noPrice
  let shares := calculateSharesForBet betType amount yesLiquidity noLiquidity b
  let effectivePrice : ℝ := if (shares : ℝ) > 0 then amount / (shares : ℝ) else 0
  let priceImpact := if currentPrice > 0 then |effectivePrice - currentPrice| / currentPrice else 0
  let newYesLiquidity := if betType = 1 then yesLiquidity + shares else yesLiquidity
  let newNoLiquidity := if betType = 1 then noLiquidity else noLiquidity + shares
  let newPrices := calculatePrices newYesLiquidity newNoLiquidity b
  let newPrice := if betType = 1 then newPrices.yesPrice else newPrices.noPrice
  let slippage := if currentPrice > 0 then |newPrice - currentPrice| / currentPrice else 0
  ⟨priceImpact, newPrice, slippage⟩

end MC

namespace P13

/-- Basis-points denominator `BP_DENOM` of `part_013`. -/
noncomputable def BP_DENOM : ℝ := 10000

/-- Default platform fee `FEE_BP` of `part_013`. -/
noncomputable def FEE_BP : ℝ := 100

/-- Softmax prices of `part_013` (`calculatePrices`): the zero value of `b` is
replaced by 1 via the JS `|| 1` guard, then both quantities are divided by `b`
and the elementwise maximum is subtracted before exponentiating. -/
noncomputable def calculatePrices (qYes qNo b : ℤ) : MarketPrices :=
  let bN : ℝ := if (b : ℝ) = 0 then 1 else (b : ℝ)
  let qy := (qYes : ℝ) / bN
  let qn := (qNo : ℝ) / bN
  let maxq := max qy qn
  let ey := Real.exp (qy - maxq)
  let en := Real.exp (qn - maxq)
  ⟨ey / (ey + en), en / (ey + en)⟩

/-- Cost function of `part_013` (`cost`): `bN = Math.max(Number(b), 1e-12)`,
then the max-subtracted log-sum-exp
`bN * (ln(exp(qy - maxq) + exp(qn - maxq)) + maxq)`. -/
noncomputable def cost (qYes qNo b : ℤ) : ℝ :=
  let bN : ℝ := max (b : ℝ) 1e-12
  let qy := (qYes : ℝ) / bN
  let qn := (qNo : ℝ) / bN
  let maxq := max qy qn
  bN * (Real.log (Real.exp (qy - maxq) + Real.exp (qn - maxq)) + maxq)

/-- Fee netting on the buy side of `part_013` (`calculateSharesForBet`, line
`net = amountTokens * (1 - feeBp / BP_DENOM)`). -/
noncomputable def buyNet (amountTokens feeBp : ℝ) : ℝ :=
  amountTokens * (1 - feeBp / BP_DENOM)

/-- Ceiling fee on the sell side of `part_013` (`calculateAmountForShares`,
line `fee = Math.ceil((gross * feeBp) / BP_DENOM)`). -/
noncomputable def sellFee (gross feeBp : ℝ) : ℤ :=
  ⌈gross * feeBp / BP_DENOM⌉

/-- Newton iteration of `part_013` `calculateSharesForBet`: at most the given
fuel many steps; stops early when `|f| < 1e-9` or the derivative is `<= 0`;
the iterate states are floored and clamped at zero before each evaluation. -/
noncomputable def newtonLoop (dirYes : Bool) (qYes qNo b : ℤ) (target : ℝ) :
    ℕ → ℝ → ℝ
  | 0, s => s
  | n + 1, s =>
    let qYs : ℝ := (qYes : ℝ) + (if dirYes then s else 0)
    let qNs : ℝ := (qNo : ℝ) + (if dirYes then 0 else s)
    let C := cost (max 0 ⌊qYs⌋) (max 0 ⌊qNs⌋) b
    let f := C - target
    if |f| < 1e-9 then s
    else
      let p := calculatePrices (max 0 ⌊qYs⌋) (max 0 ⌊qNs⌋) b
      let d := if dirYes then p.yesPrice else p.noPrice
      if d ≤ 0 then s
      else
        let s2 := s - f / d
        newtonLoop dirYes qYes qNo b target n (if s2 < 0 then 0 else s2)

/-- Buy quoter of `part_013` (`calculateSharesForBet`): nets the fee
multiplicatively, then runs 30 Newton steps seeded with `s = net` and returns
`Math.max(0, s)`; there is no bisection fallback. -/
noncomputable def calculateSharesForBet (betType : ℕ) (amountTokens : ℝ)
    (qYes qNo b : ℤ) (feeBp : ℝ) : ℝ :=
  if amountTokens ≤ 0 then 0
  else
    let net := buyNet amountTokens feeBp
    if net ≤ 0 then 0
    else
      let target := cost qYes qNo b + net
      max 0 (newtonLoop (betType == 1) qYes qNo b target 30 net)

/-- Sell quoter of `part_013` (`calculateAmountForShares`): clamps the
floored post-sale state at zero, takes `gross = max(0, C0 - C1)`, and returns
`max(0, gross - fee)` with the ceiling fee. -/
noncomputable def calculateAmountForShares (sellType : ℕ) (shares : ℝ)
    (qYes qNo b : ℤ) (feeBp : ℝ) : ℝ :=
  if shares ≤ 0 then 0
  else
    let C0 := cost qYes qNo b
    let qYs := (qYes : ℝ) - (if sellType = 1 then shares else 0)
    let qNs := (qNo : ℝ) - (if sellType = 0 then shares else 0)
    let C1 := cost (max 0 ⌊qYs⌋) (max 0 ⌊qNs⌋) b
    let gross := max 0 (C0 - C1)
    max 0 (gross - (sellFee gross feeBp : ℝ))

/-- Impact analyzer of `part_013` (`calculateMarketImpact`). -/
noncomputable def calculateMarketImpact (betType : ℕ) (amountTokens : ℝ)
    (qYes qNo b : ℤ) (feeBp : ℝ) : MarketImpact :=
  let prices0 := calculatePrices qYes qNo b
  let currentPrice := if betType = 1 then prices0.yesPrice else prices0.noPrice
  let shares := calculateSharesForBet betType amountTokens qYes qNo b feeBp
  let effectivePrice := if shares > 0 then amountTokens / shares else 0
  let priceImpact := if currentPrice > 0 then |effectivePrice - currentPrice| / currentPrice else 0
  let qYs := (qYes : ℝ) + (if betType = 1 then shares else 0)
  let qNs := (qNo : ℝ) + (if betType = 0 then shares else 0)
  let next := calculatePrices (max 0 ⌊qYs⌋) (max 0 ⌊qNs⌋) b
  let newPrice := if betType = 1 then next.yesPrice else next.noPrice
  let slippage := if currentPrice > 0 then |newPrice - currentPrice| / currentPrice else 0
  ⟨priceImpact, newPrice, slippage⟩

end P13

/-- Positivity of a sum of two exponentials. -/
theorem exp_add_exp_pos (x y : ℝ) : 0 < Real.exp x + Real.exp y := by positivity

/-- Softmax of a pair is a probability vector: both components are in `[0, 1]`
and they add up to exactly 1. -/
theorem softmax_spec (u v : ℝ) :
    0 ≤ Real.exp u / (Real.exp u + Real.exp v) ∧
    Real.exp u / (Real.exp u + Real.exp v) ≤ 1 ∧
    0 ≤ Real.exp v / (Real.exp u + Real.exp v) ∧
    Real.exp v / (Real.exp u + Real.exp v) ≤ 1 ∧
    Real.exp u / (Real.exp u + Real.exp v) + Real.exp v / (Real.exp u + Real.exp v) = 1 := by
  have hu := Real.exp_pos u
  have hv := Real.exp_pos v
  have hs : 0 < Real.exp u + Real.exp v := by linarith
  refine ⟨by positivity, ?_, by positivity, ?_, ?_⟩
  · rw [div_le_one hs]; linarith
  · rw [div_le_one hs]; linarith
  · rw [div_add_div_same, div_self hs.ne']

/-- The direct LMSR cost is monotone in the first coordinate. -/
theorem MC.lmsrCost_mono {x y : ℝ} (r b : ℝ) (hb : 0 < b) (hxy : x ≤ y) :
    MC.lmsrCost x r b ≤ MC.lmsrCost y r b := by
  unfold MC.lmsrCost
  have h1 : Real.exp (x / b) + Real.exp (r / b) ≤ Real.exp (y / b) + Real.exp (r / b) := by
    have hd : x / b ≤ y / b := by gcongr
    have := Real.exp_le_exp.mpr hd
    linarith
  have hlog := Real.log_le_log (by positivity) h1
  exact mul_le_mul_of_nonneg_left hlog hb.le

/-- The direct LMSR cost is strictly increasing in the first coordinate. -/
theorem MC.lmsrCost_strict_mono {x y : ℝ} (r b : ℝ) (hb : 0 < b) (hxy : x < y) :
    MC.lmsrCost x r b < MC.lmsrCost y r b := by
  unfold MC.lmsrCost
  have h1 : Real.exp (x / b) + Real.exp (r / b) < Real.exp (y / b) + Real.exp (r / b) := by
    have hd : x / b < y / b := by gcongr
    have := Real.exp_lt_exp.mpr hd
    linarith
  have hlog := Real.log_lt_log (by positivity) h1
  exact mul_lt_mul_of_pos_left hlog hb

/-- Buying `d > 0` shares costs strictly less than `d` (the marginal price is
always strictly below 1). -/
theorem MC.lmsrCost_gain_lt (q r b d : ℝ) (hb : 0 < b) (hd : 0 < d) :
    MC.lmsrCost (q + d) r b - MC.lmsrCost q r b < d := by
  unfold MC.lmsrCost
  have hS1 : 0 < Real.exp (q / b) + Real.exp (r / b) := exp_add_exp_pos _ _
  have hkey : Real.exp ((q + d) / b) + Real.exp (r / b) <
      Real.exp (d / b) * (Real.exp (q / b) + Real.exp (r / b)) := by
    have e1 : Real.exp (d / b) * Real.exp (q / b) = Real.exp ((q + d) / b) := by
      rw [← Real.exp_add]
      congr 1
      field_simp
      ring
    have e2 : (1 : ℝ) < Real.exp (d / b) := Real.one_lt_exp_iff.mpr (by positivity)
    nlinarith [Real.exp_pos (r / b), Real.exp_pos (q / b)]
  have hlog : Real.log (Real.exp ((q + d) / b) + Real.exp (r / b)) <
      d / b + Real.log (Real.exp (q / b) + Real.exp (r / b)) := by
    have h := Real.log_lt_log (by positivity) hkey
    rwa [Real.log_mul (Real.exp_ne_zero _) hS1.ne', Real.log_exp] at h
  have hmul := mul_lt_mul_of_pos_left hlog hb
  have hbb : b * (d / b) = d := by field_simp
  nlinarith [hmul]

/-- The stabilized cost of `part_013` agrees with the direct log-sum-exp form
whenever the integer liquidity parameter is at least 1. -/
theorem P13.cost_eq_lmsrCost (qYes qNo b : ℤ) (hb : 1 ≤ b) :
    P13.cost qYes qNo b = MC.lmsrCost (qYes : ℝ) (qNo : ℝ) (b : ℝ) := by
  have hb1 : (1 : ℝ) ≤ (b : ℝ) := by exact_mod_cast hb
  have hbb : max ((b : ℤ) : ℝ) (1e-12 : ℝ) = (b : ℝ) :=
    max_eq_left (le_trans (by norm_num) hb1)
  simp only [P13.cost, MC.lmsrCost]
  rw [hbb]
  have hsum : (0 : ℝ) < Real.exp ((qYes : ℝ) / (b : ℝ)) + Real.exp ((qNo : ℝ) / (b : ℝ)) :=
    exp_add_exp_pos _ _
  congr 1
  rw [Real.exp_sub, Real.exp_sub, div_add_div_same,
    Real.log_div hsum.ne' (Real.exp_ne_zero _), Real.log_exp]
  ring

/-- For non-negative amounts the truncating BigInt division in `betFee` agrees
with floor division. -/
theorem MC.betFee_eq_ediv (a : ℤ) (ha : 0 ≤ a) :
    MC.betFee a = (a * 100 + 10000 - 1) / 10000 := by
  unfold MC.betFee
  rw [Int.tdiv_eq_ediv (by omega) (by omega)]

/-- The BigInt fee is between 0 and the bet amount. -/
theorem MC.betFee_bounds (a : ℤ) (ha : 0 ≤ a) : 0 ≤ MC.betFee a ∧ MC.betFee a ≤ a := by
  rw [MC.betFee_eq_ediv a ha]
  omega

/-- The fee-netted spend is non-negative for a non-negative amount. -/
theorem MC.netAmount_nonneg (amount : ℝ) (ha : 0 ≤ amount) : 0 ≤ MC.netAmount amount := by
  unfold MC.netAmount
  have h0 : 0 ≤ ⌊amount⌋ := Int.floor_nonneg.mpr ha
  have h1 := MC.betFee_bounds ⌊amount⌋ h0
  omega

/-- The quote for zero shares is zero on either side. -/
theorem MC.buyQuote_zero (betType : ℕ) (qYes qNo b : ℤ) :
    MC.buyQuote betType qYes qNo b 0 = 0 := by
  unfold MC.buyQuote MC.lmsrBuyYesQuote MC.lmsrBuyNoQuote
  split <;> simp

/-- Invariant of the binary-search loop: starting from a feasible `lo` and an
`hi` that is either the initial upper bound `N` or has an infeasible successor,
the loop returns a value in `[0, N]` whose quote does not exceed `net`, and
which is either `N` itself or has an infeasible successor. -/
theorem MC.searchLoop_spec (quote : ℤ → ℝ) (net : ℝ) (N lo hi : ℤ)
    (h0 : 0 ≤ lo) (hlh : lo ≤ hi) (hhN : hi ≤ N)
    (hq : quote lo ≤ net) (hhi : hi = N ∨ net < quote (hi + 1)) :
    0 ≤ MC.searchLoop quote net lo hi ∧ MC.searchLoop quote net lo hi ≤ N ∧
    quote (MC.searchLoop quote net lo hi) ≤ net ∧
    (MC.searchLoop quote net lo hi = N ∨ net < quote (MC.searchLoop quote net lo hi + 1)) := by
  rw [MC.searchLoop]
  split
  next hlt =>
    split
    next hq2 =>
      exact MC.searchLoop_spec quote net N ((lo + hi + 1) / 2) hi
        (by omega) (by omega) hhN hq2 hhi
    next hq2 =>
      refine MC.searchLoop_spec quote net N lo ((lo + hi + 1) / 2 - 1)
        h0 (by omega) (by omega) hq (Or.inr ?_)
      rw [show (lo + hi + 1) / 2 - 1 + 1 = (lo + hi + 1) / 2 by ring]
      exact lt_of_not_le hq2
  next hlt =>
    have heq : lo = hi := by omega
    refine ⟨h0, by omega, hq, ?_⟩
    rw [heq]
    exact hhi
termination_by (hi - lo).toNat
decreasing_by
  · omega
  · omega

/-- When the range is empty the binary search returns its lower bound. -/
theorem MC.searchLoop_stop (quote : ℤ → ℝ) (net : ℝ) (lo hi : ℤ) (h : ¬ lo < hi) :
    MC.searchLoop quote net lo hi = lo := by
  rw [MC.searchLoop]
  simp [h]

/-- On a fresh market the binary-search upper bound is `0 + 0 = 0`, so the
buy quoter returns 0 shares no matter the spend. -/
theorem MC.calculateSharesForBet_empty (betType : ℕ) (amount : ℝ) (b : ℤ) :
    MC.calculateSharesForBet betType amount 0 0 b = 0 := by
  unfold MC.calculateSharesForBet
  exact MC.searchLoop_stop _ _ 0 (0 + 0) (by norm_num)

/-- Unfolding of the `part_013` YES-sell quoter for a positive integer share
count within the outstanding amount. -/
theorem P13.sellYes_eq (s qYes qNo b : ℤ) (feeBp : ℝ)
    (hs : 0 < s) (hsq : s ≤ qYes) (hn : 0 ≤ qNo) :
    P13.calculateAmountForShares 1 (s : ℝ) qYes qNo b feeBp =
      max 0 (max 0 (P13.cost qYes qNo b - P13.cost (qYes - s) qNo b) -
        ((P13.sellFee (max 0 (P13.cost qYes qNo b - P13.cost (qYes - s) qNo b)) feeBp : ℤ) : ℝ)) := by
  have hs0 : ¬ ((s : ℝ) ≤ 0) := by
    push_neg
    exact_mod_cast hs
  have e1 : (qYes : ℝ) - (s : ℝ) = ((qYes - s : ℤ) : ℝ) := by push_cast; ring
  simp only [P13.calculateAmountForShares]
  rw [if_neg hs0]
  simp only [if_true, show ((1:ℕ) = 0) = False from by simp, if_false, sub_zero,
    Int.floor_intCast]
  rw [e1, Int.floor_intCast,
    max_eq_right (show (0:ℤ) ≤ qYes - s by omega), max_eq_right hn]

/-- For non-negative amounts the BigInt buy fee equals the ceiling of
`amount * 100 / 10000`, i.e. the `(n + d - 1) / d` idiom is ceiling division. -/
theorem MC.betFee_eq_ceil (a : ℤ) (ha : 0 ≤ a) :
    MC.betFee a = ⌈((a : ℚ) * 100) / 10000⌉ := by
  rw [MC.betFee_eq_ediv a ha, eq_comm, Int.ceil_eq_iff]
  have h1 : 10000 * ((a * 100 + 10000 - 1) / 10000) - 10000 < a * 100 := by omega
  have h2 : a * 100 ≤ 10000 * ((a * 100 + 10000 - 1) / 10000) := by omega
  have h1Q : ((10000 * ((a * 100 + 10000 - 1) / 10000) - 10000 : ℤ) : ℚ) <
      ((a * 100 : ℤ) : ℚ) := Int.cast_lt.mpr h1
  have h2Q : ((a * 100 : ℤ) : ℚ) ≤
      ((10000 * ((a * 100 + 10000 - 1) / 10000) : ℤ) : ℚ) := Int.cast_le.mpr h2
  push_cast at h1Q h2Q
  constructor
  · rw [lt_div_iff₀ (by norm_num : (0:ℚ) < 10000)]
    linarith
  · rw [div_le_iff₀ (by norm_num : (0:ℚ) < 10000)]
    linarith

/-- Claim C1, counterexample: selling 1 YES share when 0 are outstanding makes
`calculateAmountForShares` (market-calculations.ts) return the numeric payout
0; no `InsufficientShares` error is signalled, contradicting the claim that an
oversell never returns a numeric payout (in particular never 0). -/
theorem c1_counterexample : MC.calculateAmountForShares 1 1 0 0 1 = 0 := by
  norm_num [MC.calculateAmountForShares, MC.lmsrSellYesQuote]

/-- Claim C1 (amended): a sell request for more shares than outstanding is not
surfaced as an error. The `market-calculations.ts` variant returns the numeric
payout 0, and the `part_013` variant clamps the depleted outcome at zero and
returns the fee-netted payout for selling every outstanding YES share. -/
theorem c1_oversell_not_an_error (qYes qNo b : ℤ) (s feeBp : ℝ)
    (hq : 0 ≤ qYes) (hn : 0 ≤ qNo) (hs : (qYes : ℝ) < s) :
    MC.calculateAmountForShares 1 s qYes qNo b = 0 ∧
    P13.calculateAmountForShares 1 s qYes qNo b feeBp =
      max 0 (max 0 (P13.cost qYes qNo b - P13.cost 0 qNo b) -
        ((P13.sellFee (max 0 (P13.cost qYes qNo b - P13.cost 0 qNo b)) feeBp : ℤ) : ℝ)) := by
  constructor
  · unfold MC.calculateAmountForShares
    rw [if_pos rfl]
    unfold MC.lmsrSellYesQuote
    rw [if_pos hs]
  · have hs0 : ¬ (s ≤ 0) := by
      push_neg
      have hq0 : (0:ℝ) ≤ (qYes : ℝ) := by exact_mod_cast hq
      linarith
    simp only [P13.calculateAmountForShares]
    rw [if_neg hs0]
    simp only [if_true, show ((1:ℕ) = 0) = False from by simp, if_false, sub_zero,
      Int.floor_intCast]
    have hfl : ⌊(qYes : ℝ) - s⌋ < 0 := Int.floor_lt.mpr (by push_cast; linarith)
    rw [max_eq_left hfl.le, max_eq_right hn]

/-- Claim C1, witness for the amended theorem at a concrete oversell. -/
theorem c1_witness :
    (0:ℤ) ≤ 0 ∧ ((0:ℤ) : ℝ) < 1 ∧
    (MC.calculateAmountForShares 1 1 0 0 1 = 0 ∧
     P13.calculateAmountForShares 1 1 0 0 1 100 =
       max 0 (max 0 (P13.cost 0 0 1 - P13.cost 0 0 1) -
         ((P13.sellFee (max 0 (P13.cost 0 0 1 - P13.cost 0 0 1)) 100 : ℤ) : ℝ))) :=
  ⟨le_refl 0, by norm_num,
   c1_oversell_not_an_error 0 0 1 1 100 (le_refl 0) (le_refl 0) (by norm_num)⟩

/-- Claim C2, counterexample: on the buy side of `part_013` a gross spend of 50
at 100 bp is netted multiplicatively to 49.5, whereas the claimed shared
ceiling rule `fee = ceil(amount * feeRateBp / 10000)` would net it to 49. -/
theorem c2_counterexample :
    P13.buyNet 50 100 ≠ 50 - ((⌈(50 : ℝ) * 100 / 10000⌉ : ℤ) : ℝ) := by
  have h : (⌈(50 : ℝ) * 100 / 10000⌉ : ℤ) = 1 := by
    rw [Int.ceil_eq_iff]
    norm_num
  rw [h]
  norm_num [P13.buyNet, P13.BP_DENOM]

/-- Claim C2 (amended): the ceiling rule is used on the `part_013` sell side
and in the `market-calculations.ts` BigInt buy fee (at its fixed 100 bp rate,
on the floored integer amount), but the `part_013` buy side nets the spend
multiplicatively with the exact proportional fee `amount * feeBp / 10000`;
there is no single shared rounding rule on both sides. -/
theorem c2_fee_rules (a : ℤ) (x f g : ℝ) (ha : 0 ≤ a) :
    MC.betFee a = ⌈((a : ℚ) * 100) / 10000⌉ ∧
    P13.buyNet x f = x - x * f / 10000 ∧
    P13.sellFee g f = ⌈g * f / 10000⌉ := by
  refine ⟨MC.betFee_eq_ceil a ha, ?_, ?_⟩
  · unfold P13.buyNet P13.BP_DENOM
    ring
  · unfold P13.sellFee P13.BP_DENOM
    rfl

/-- Claim C2, witness for the amended theorem at concrete values. -/
theorem c2_witness :
    (0:ℤ) ≤ 50 ∧
    (MC.betFee 50 = ⌈(((50:ℤ) : ℚ) * 100) / 10000⌉ ∧
     P13.buyNet 50 100 = 50 - 50 * 100 / 10000 ∧
     P13.sellFee 1 100 = ⌈(1:ℝ) * 100 / 10000⌉) :=
  ⟨by norm_num, c2_fee_rules 50 50 100 1 (by norm_num)⟩

/-- Claim C4, counterexample: for `b = 1000000`, `qYes = qNo = 0`, a YES buy of
gross 100000, the quoter of `market-calculations.ts` returns 0 shares (its
binary-search upper bound is `qYes + qNo = 0`), not approximately 98534 shares,
and the YES price at the post-trade state stays exactly 1/2, not above it. -/
theorem c4_counterexample :
    MC.calculateSharesForBet 1 100000 0 0 1000000 = 0 ∧
    ¬ (1/2 : ℝ) <
      (MC.calculatePrices (0 + MC.calculateSharesForBet 1 100000 0 0 1000000) 0
        1000000).yesPrice := by
  have h0 := MC.calculateSharesForBet_empty 1 100000 1000000
  refine ⟨h0, ?_⟩
  rw [h0]
  norm_num [MC.calculatePrices]

/-- Claim C4 (amended): in the concrete scenario the fee-netted spend is
indeed 99000, but the returned share quantity is 0 and the post-trade YES
price is exactly 1/2. -/
theorem c4_concrete_scenario :
    MC.netAmount 100000 = 99000 ∧
    MC.calculateSharesForBet 1 100000 0 0 1000000 = 0 ∧
    (MC.calculatePrices 0 0 1000000).yesPrice = 1/2 := by
  refine ⟨?_, MC.calculateSharesForBet_empty 1 100000 1000000, ?_⟩
  · norm_num [MC.netAmount, MC.betFee, Int.tdiv]
  · norm_num [MC.calculatePrices]

/-- Claim C8, counterexample: `part_013` proceeds on `b ≤ 0` instead of
failing: `calculatePrices` with `b = 0` substitutes 1 and returns the numeric
prices `(1/2, 1/2)`, and `cost` clamps every `b ≤ 0` to `1e-12`, so `b = 0`
and `b = -5` silently produce the same numeric value. -/
theorem c8_counterexample :
    (P13.calculatePrices 0 0 0).yesPrice = 1/2 ∧
    P13.cost 7 3 0 = P13.cost 7 3 (-5) := by
  constructor
  · norm_num [P13.calculatePrices, Real.exp_zero]
  · simp only [P13.cost]
    rw [max_eq_right (show ((0:ℤ):ℝ) ≤ 1e-12 by norm_num),
      max_eq_right (show ((-5:ℤ):ℝ) ≤ 1e-12 by norm_num)]

/-- Claim C8 (amended): no engine operation fails on `b ≤ 0`; `part_013`
silently clamps. Every non-positive `b` makes `cost` behave exactly as `b = 0`
does (the internal parameter is clamped to `1e-12`), and `calculatePrices`
replaces `b = 0` by 1, behaving exactly as `b = 1`. -/
theorem c8_b_nonpositive_clamped (qYes qNo b : ℤ) (hb : b ≤ 0) :
    P13.cost qYes qNo b = P13.cost qYes qNo 0 ∧
    P13.calculatePrices qYes qNo 0 = P13.calculatePrices qYes qNo 1 := by
  constructor
  · simp only [P13.cost]
    have hbR : ((b:ℤ) : ℝ) ≤ 0 := by exact_mod_cast hb
    rw [max_eq_right (by linarith : ((b:ℤ):ℝ) ≤ 1e-12),
      max_eq_right (show ((0:ℤ):ℝ) ≤ 1e-12 by norm_num)]
  · simp only [P13.calculatePrices]
    rw [if_pos (show ((0:ℤ):ℝ) = 0 by norm_num),
      if_neg (show ¬ ((1:ℤ):ℝ) = 0 by norm_num), Int.cast_one]

/-- Claim C8, witness for the amended theorem at `b = -3`. -/
theorem c8_witness :
    (-3:ℤ) ≤ 0 ∧
    (P13.cost 1 2 (-3) = P13.cost 1 2 0 ∧
     P13.calculatePrices 1 2 0 = P13.calculatePrices 1 2 1) :=
  ⟨by norm_num, c8_b_nonpositive_clamped 1 2 (-3) (by norm_num)⟩

/-- Claim C5: both price functions return a pair of prices in `[0, 1]` that
add up to exactly 1 (hence certainly within the claimed 1e-9 tolerance), for
all states with non-negative outstanding shares and positive `b`. -/
theorem c5_prices_normalized (qYes qNo b : ℤ) (hy : 0 ≤ qYes) (hn : 0 ≤ qNo) (hb : 0 < b) :
    (0 ≤ (MC.calculatePrices qYes qNo b).yesPrice ∧
     (MC.calculatePrices qYes qNo b).yesPrice ≤ 1 ∧
     0 ≤ (MC.calculatePrices qYes qNo b).noPrice ∧
     (MC.calculatePrices qYes qNo b).noPrice ≤ 1 ∧
     (MC.calculatePrices qYes qNo b).yesPrice + (MC.calculatePrices qYes qNo b).noPrice = 1) ∧
    (0 ≤ (P13.calculatePrices qYes qNo b).yesPrice ∧
     (P13.calculatePrices qYes qNo b).yesPrice ≤ 1 ∧
     0 ≤ (P13.calculatePrices qYes qNo b).noPrice ∧
     (P13.calculatePrices qYes qNo b).noPrice ≤ 1 ∧
     (P13.calculatePrices qYes qNo b).yesPrice + (P13.calculatePrices qYes qNo b).noPrice = 1) := by
  constructor
  · unfold MC.calculatePrices
    split
    next h =>
      dsimp only
      norm_num
    next h =>
      dsimp only
      unfold MC.lmsrPriceNo MC.lmsrPriceYes
      have hsm := softmax_spec ((qYes : ℝ) / (b : ℝ)) ((qNo : ℝ) / (b : ℝ))
      exact ⟨hsm.1, hsm.2.1, by linarith [hsm.2.1], by linarith [hsm.1], by ring⟩
  · unfold P13.calculatePrices
    dsimp only
    exact ⟨(softmax_spec _ _).1, (softmax_spec _ _).2.1, (softmax_spec _ _).2.2.1,
      (softmax_spec _ _).2.2.2.1, (softmax_spec _ _).2.2.2.2⟩

/-- Claim C5, witness: price normalization at a concrete state. -/
theorem c5_witness :
    ((0:ℤ) ≤ 2 ∧ (0:ℤ) ≤ 0 ∧ (0:ℤ) < 3) ∧
    (MC.calculatePrices 2 0 3).yesPrice + (MC.calculatePrices 2 0 3).noPrice = 1 ∧
    (P13.calculatePrices 2 0 3).yesPrice + (P13.calculatePrices 2 0 3).noPrice = 1 :=
  ⟨⟨by norm_num, le_refl 0, by norm_num⟩,
   ((c5_prices_normalized 2 0 3 (by norm_num) (le_refl 0) (by norm_num)).1).2.2.2.2,
   ((c5_prices_normalized 2 0 3 (by norm_num) (le_refl 0) (by norm_num)).2).2.2.2.2⟩

/-- Claim C7: the max-subtracted stabilized cost of `part_013` equals, as an
embedded real-valued function, the direct reference form
`b * ln(exp(qYes/b) + exp(qNo/b))` (which is `lmsrCost` of
market-calculations.ts). -/
theorem c7_cost_stabilized_eq_reference (qYes qNo b : ℤ)
    (hy : 0 ≤ qYes) (hn : 0 ≤ qNo) (hb : 0 < b) :
    P13.cost qYes qNo b = MC.lmsrCost (qYes : ℝ) (qNo : ℝ) (b : ℝ) :=
  P13.cost_eq_lmsrCost qYes qNo b (by omega)

/-- Claim C7, witness at a concrete state. -/
theorem c7_witness :
    ((0:ℤ) ≤ 5 ∧ (0:ℤ) ≤ 2 ∧ (0:ℤ) < 4) ∧
    P13.cost 5 2 4 = MC.lmsrCost 5 2 4 := by
  refine ⟨⟨by norm_num, by norm_num, by norm_num⟩, ?_⟩
  have h := c7_cost_stabilized_eq_reference 5 2 4 (by norm_num) (by norm_num) (by norm_num)
  push_cast at h
  exact h

/-- Claim C6 (amended): for an integer sell `0 < s ≤ qYes` of YES shares the
`part_013` quoter computes the closed-form gross payout
`cost(q) - cost(q - s*eYes)`, which is non-negative, but returns
`max 0 (gross - fee)` — clamped at zero — rather than `gross - fee` itself. -/
theorem c6_sell_closed_form (s qYes qNo b : ℤ) (feeBp : ℝ)
    (hs : 0 < s) (hsq : s ≤ qYes) (hn : 0 ≤ qNo) (hb : 0 < b) :
    0 ≤ P13.cost qYes qNo b - P13.cost (qYes - s) qNo b ∧
    P13.calculateAmountForShares 1 (s : ℝ) qYes qNo b feeBp =
      max 0 ((P13.cost qYes qNo b - P13.cost (qYes - s) qNo b) -
        ((P13.sellFee (P13.cost qYes qNo b - P13.cost (qYes - s) qNo b) feeBp : ℤ) : ℝ)) := by
  have hb1 : (1:ℤ) ≤ b := by omega
  have hmono : P13.cost (qYes - s) qNo b ≤ P13.cost qYes qNo b := by
    rw [P13.cost_eq_lmsrCost _ _ _ hb1, P13.cost_eq_lmsrCost _ _ _ hb1]
    refine MC.lmsrCost_mono _ _ (by exact_mod_cast hb) ?_
    exact_mod_cast (by omega : qYes - s ≤ qYes)
  have hg : 0 ≤ P13.cost qYes qNo b - P13.cost (qYes - s) qNo b := by linarith
  refine ⟨hg, ?_⟩
  rw [P13.sellYes_eq s qYes qNo b feeBp hs hsq hn, max_eq_right hg]

/-- Claim C6, witness for the amended theorem at a concrete integer sell. -/
theorem c6_witness :
    ((0:ℤ) < 1 ∧ (1:ℤ) ≤ 1 ∧ (0:ℤ) ≤ 0 ∧ (0:ℤ) < 1) ∧
    (0 ≤ P13.cost 1 0 1 - P13.cost (1 - 1) 0 1 ∧
     P13.calculateAmountForShares 1 ((1:ℤ) : ℝ) 1 0 1 100 =
       max 0 ((P13.cost 1 0 1 - P13.cost (1 - 1) 0 1) -
         ((P13.sellFee (P13.cost 1 0 1 - P13.cost (1 - 1) 0 1) 100 : ℤ) : ℝ))) :=
  ⟨⟨by norm_num, le_refl 1, le_refl 0, by norm_num⟩,
   c6_sell_closed_form 1 1 0 1 100 (by norm_num) (le_refl 1) (le_refl 0) (by norm_num)⟩

/-- Claim C6, counterexample: selling 1 YES share out of 1 outstanding at
`b = 1000000`, the gross payout lies strictly between 0 and 1, the ceiling
fee rounds up to 1, and the quoter returns the clamped value 0 — not
`gross - fee`, which is negative. -/
theorem c6_counterexample :
    P13.calculateAmountForShares 1 1 1 0 1000000 100 = 0 ∧
    P13.calculateAmountForShares 1 1 1 0 1000000 100 ≠
      (P13.cost 1 0 1000000 - P13.cost 0 0 1000000) -
        ((P13.sellFee (P13.cost 1 0 1000000 - P13.cost 0 0 1000000) 100 : ℤ) : ℝ) := by
  have hb1 : (1:ℤ) ≤ 1000000 := by norm_num
  have hgpos : 0 < P13.cost 1 0 1000000 - P13.cost 0 0 1000000 := by
    rw [P13.cost_eq_lmsrCost _ _ _ hb1, P13.cost_eq_lmsrCost _ _ _ hb1]
    have h := MC.lmsrCost_strict_mono (r := ((0:ℤ) : ℝ)) (b := ((1000000:ℤ) : ℝ))
      (by norm_num) (show ((0:ℤ) : ℝ) < ((1:ℤ) : ℝ) by norm_num)
    linarith
  have hglt : P13.cost 1 0 1000000 - P13.cost 0 0 1000000 < 1 := by
    rw [P13.cost_eq_lmsrCost _ _ _ hb1, P13.cost_eq_lmsrCost _ _ _ hb1]
    have h := MC.lmsrCost_gain_lt ((0:ℤ) : ℝ) ((0:ℤ) : ℝ) ((1000000:ℤ) : ℝ) 1
      (by norm_num) one_pos
    have e : ((0:ℤ) : ℝ) + 1 = ((1:ℤ) : ℝ) := by norm_num
    rw [e] at h
    exact h
  have hfee : P13.sellFee (P13.cost 1 0 1000000 - P13.cost 0 0 1000000) 100 = 1 := by
    unfold P13.sellFee P13.BP_DENOM
    rw [Int.ceil_eq_iff]
    constructor
    · push_cast
      linarith
    · push_cast
      linarith
  have hL : P13.calculateAmountForShares 1 1 1 0 1000000 100 = 0 := by
    have h := P13.sellYes_eq 1 1 0 1000000 100 one_pos (le_refl 1) (le_refl 0)
    norm_num at h
    rw [max_eq_right hgpos.le, hfee] at h
    rw [h, max_eq_left (by push_cast; linarith)]
  refine ⟨hL, ?_⟩
  rw [hL, hfee]
  push_cast
  exact ne_of_gt (by linarith)

/-- Claim C3, counterexample: a YES buy of 1000 on an empty market
(`qYes = qNo = 0`, `b = 1000`) has fee-netted spend 990 > 0, yet the
market-calculations.ts quoter returns 0 shares, whose LMSR cost 0 misses the
net spend by 990 — no `< 1e-9` residual guarantee and no bisection fallback. -/
theorem c3_counterexample :
    MC.calculateSharesForBet 1 1000 0 0 1000 = 0 ∧
    ¬ |MC.lmsrBuyYesQuote 0 0 1000 ((MC.calculateSharesForBet 1 1000 0 0 1000 : ℤ) : ℝ) -
        ((MC.netAmount 1000 : ℤ) : ℝ)| < 1e-9 := by
  have h0 := MC.calculateSharesForBet_empty 1 1000 1000
  refine ⟨h0, ?_⟩
  rw [h0]
  have hq : MC.lmsrBuyYesQuote 0 0 1000 (((0:ℤ) : ℤ) : ℝ) = 0 := by
    simp [MC.lmsrBuyYesQuote]
  rw [hq]
  have hnet : MC.netAmount 1000 = 990 := by
    norm_num [MC.netAmount, MC.betFee, Int.tdiv]
  rw [hnet, zero_sub, abs_neg, abs_of_nonneg (by norm_num : (0:ℝ) ≤ ((990:ℤ) : ℝ))]
  push_cast
  norm_num

/-- Claim C3 (amended): the market-calculations.ts buy quoter is an integer
binary search, not a Newton/bisection root-finder: it returns the largest
integer share count in `[0, qYes + qNo]` whose LMSR cost does not exceed the
fee-netted spend (either the upper bound itself, or a count whose successor
would cost more than the net spend); it guarantees no `1e-9` residual. -/
theorem c3_buy_search_bracket (betType : ℕ) (amount : ℝ) (qYes qNo b : ℤ)
    (hy : 0 ≤ qYes) (hn : 0 ≤ qNo) (hb : 0 < b) (ha : 0 ≤ amount) :
    0 ≤ MC.calculateSharesForBet betType amount qYes qNo b ∧
    MC.calculateSharesForBet betType amount qYes qNo b ≤ qYes + qNo ∧
    MC.buyQuote betType qYes qNo b (MC.calculateSharesForBet betType amount qYes qNo b) ≤
      ((MC.netAmount amount : ℤ) : ℝ) ∧
    (MC.calculateSharesForBet betType amount qYes qNo b = qYes + qNo ∨
      ((MC.netAmount amount : ℤ) : ℝ) <
        MC.buyQuote betType qYes qNo b
          (MC.calculateSharesForBet betType amount qYes qNo b + 1)) := by
  unfold MC.calculateSharesForBet
  refine MC.searchLoop_spec _ _ (qYes + qNo) 0 (qYes + qNo) le_rfl (by omega) le_rfl ?_
    (Or.inl rfl)
  rw [MC.buyQuote_zero]
  exact_mod_cast MC.netAmount_nonneg amount ha

/-- Claim C3, witness for the amended theorem at a concrete input. -/
theorem c3_witness :
    ((0:ℤ) ≤ 0 ∧ (0:ℤ) < 1 ∧ (0:ℝ) ≤ 100) ∧
    (0 ≤ MC.calculateSharesForBet 1 100 0 0 1 ∧
     MC.calculateSharesForBet 1 100 0 0 1 ≤ 0 + 0 ∧
     MC.buyQuote 1 0 0 1 (MC.calculateSharesForBet 1 100 0 0 1) ≤
       ((MC.netAmount 100 : ℤ) : ℝ) ∧
     (MC.calculateSharesForBet 1 100 0 0 1 = 0 + 0 ∨
       ((MC.netAmount 100 : ℤ) : ℝ) <
         MC.buyQuote 1 0 0 1 (MC.calculateSharesForBet 1 100 0 0 1 + 1))) :=
  ⟨⟨le_refl 0, by norm_num, by norm_num⟩,
   c3_buy_search_bracket 1 100 0 0 1 (le_refl 0) (le_refl 0) (by norm_num) (by norm_num)⟩

/-- Claim C10: the binary-search buy quoter under-approximates — it returns an
integer share count `s` with `0 ≤ s ≤ qYes + qNo` whose LMSR buy cost
`cost(q + s*e_outcome, b) - cost(q, b)` never exceeds the fee-netted spend. -/
theorem c10_buy_cost_never_exceeds_net (betType : ℕ) (amount : ℝ) (qYes qNo b : ℤ)
    (hy : 0 ≤ qYes) (hn : 0 ≤ qNo) (hb : 0 < b) (ha : 0 ≤ amount) :
    0 ≤ MC.calculateSharesForBet betType amount qYes qNo b ∧
    MC.calculateSharesForBet betType amount qYes qNo b ≤ qYes + qNo ∧
    (if betType = 1 then
       MC.lmsrCost ((qYes : ℝ) + ((MC.calculateSharesForBet betType amount qYes qNo b : ℤ) : ℝ))
           (qNo : ℝ) (b : ℝ) -
         MC.lmsrCost (qYes : ℝ) (qNo : ℝ) (b : ℝ)
     else
       MC.lmsrCost (qYes : ℝ)
           ((qNo : ℝ) + ((MC.calculateSharesForBet betType amount qYes qNo b : ℤ) : ℝ)) (b : ℝ) -
         MC.lmsrCost (qYes : ℝ) (qNo : ℝ) (b : ℝ)) ≤ ((MC.netAmount amount : ℤ) : ℝ) := by
  have hspec := MC.searchLoop_spec (MC.buyQuote betType qYes qNo b)
    ((MC.netAmount amount : ℤ) : ℝ) (qYes + qNo) 0 (qYes + qNo) le_rfl (by omega) le_rfl
    (by rw [MC.buyQuote_zero]; exact_mod_cast MC.netAmount_nonneg amount ha) (Or.inl rfl)
  unfold MC.calculateSharesForBet
  refine ⟨hspec.1, hspec.2.1, ?_⟩
  have h3 := hspec.2.2.1
  unfold MC.buyQuote MC.lmsrBuyYesQuote MC.lmsrBuyNoQuote at h3
  exact h3

/-- Claim C10, witness at a concrete input. -/
theorem c10_witness :
    ((0:ℤ) ≤ 1 ∧ (0:ℤ) ≤ 1 ∧ (0:ℤ) < 2 ∧ (0:ℝ) ≤ 10) ∧
    (0 ≤ MC.calculateSharesForBet 0 10 1 1 2 ∧
     MC.calculateSharesForBet 0 10 1 1 2 ≤ 1 + 1 ∧
     (if (0:ℕ) = 1 then
        MC.lmsrCost (((1:ℤ) : ℝ) + ((MC.calculateSharesForBet 0 10 1 1 2 : ℤ) : ℝ))
            ((1:ℤ) : ℝ) ((2:ℤ) : ℝ) -
          MC.lmsrCost ((1:ℤ) : ℝ) ((1:ℤ) : ℝ) ((2:ℤ) : ℝ)
      else
        MC.lmsrCost ((1:ℤ) : ℝ)
            (((1:ℤ) : ℝ) + ((MC.calculateSharesForBet 0 10 1 1 2 : ℤ) : ℝ)) ((2:ℤ) : ℝ) -
          MC.lmsrCost ((1:ℤ) : ℝ) ((1:ℤ) : ℝ) ((2:ℤ) : ℝ)) ≤ ((MC.netAmount 10 : ℤ) : ℝ)) :=
  ⟨⟨by norm_num, by norm_num, by norm_num, by norm_num⟩,
   c10_buy_cost_never_exceeds_net 0 10 1 1 2 (by norm_num) (by norm_num) (by norm_num)
     (by norm_num)⟩

/-- Claim C9 (amended): when the buy quoter returns 0 shares and the current
price of the chosen outcome is positive, the impact analyzer does not zero its
fields: `priceImpact` is 1 (the effective price 0 is compared against the
current price), `newPrice` equals the unchanged current price, and only
`slippage` is 0. -/
theorem c9_zero_share_impact (betType : ℕ) (amount : ℝ) (qYes qNo b : ℤ)
    (h0 : MC.calculateSharesForBet betType amount qYes qNo b = 0)
    (hp : 0 < (if betType = 1 then (MC.calculatePrices qYes qNo b).yesPrice
          else (MC.calculatePrices qYes qNo b).noPrice)) :
    (MC.calculateMarketImpact betType amount qYes qNo b).priceImpact = 1 ∧
    (MC.calculateMarketImpact betType amount qYes qNo b).newPrice =
      (if betType = 1 then (MC.calculatePrices qYes qNo b).yesPrice
       else (MC.calculatePrices qYes qNo b).noPrice) ∧
    (MC.calculateMarketImpact betType amount qYes qNo b).slippage = 0 := by
  simp only [MC.calculateMarketImpact, h0, Int.cast_zero, add_zero, ite_self, gt_iff_lt,
    lt_self_iff_false, if_false]
  rw [if_pos hp, if_pos hp]
  refine ⟨?_, ?_, ?_⟩
  · rw [zero_sub, abs_neg, abs_of_pos hp, div_self hp.ne']
  · trivial
  · rw [sub_self, abs_zero, zero_div]

/-- Claim C9, counterexample: a YES buy of 100 on a fresh market makes the buy
quoter return 0 shares, yet the impact analyzer returns `priceImpact = 1` and
`newPrice = 1/2` — not a result whose fields are all zero. -/
theorem c9_counterexample :
    MC.calculateSharesForBet 1 100 0 0 1000000 = 0 ∧
    (MC.calculateMarketImpact 1 100 0 0 1000000).priceImpact = 1 ∧
    (MC.calculateMarketImpact 1 100 0 0 1000000).newPrice = 1/2 := by
  have h0 := MC.calculateSharesForBet_empty 1 100 1000000
  have hp0 : (0:ℝ) < (MC.calculatePrices 0 0 1000000).yesPrice := by
    norm_num [MC.calculatePrices]
  have hcp0 : (MC.calculatePrices 0 0 1000000).yesPrice = 1/2 := by
    norm_num [MC.calculatePrices]
  refine ⟨h0, ?_, ?_⟩
  · simp only [MC.calculateMarketImpact, h0, Int.cast_zero, add_zero, ite_self, gt_iff_lt,
      lt_self_iff_false, if_false, eq_self_iff_true, if_true]
    rw [if_pos hp0, zero_sub, abs_neg, abs_of_pos hp0, div_self hp0.ne']
  · simp only [MC.calculateMarketImpact, h0, Int.cast_zero, add_zero, ite_self,
      eq_self_iff_true, if_true]
    exact hcp0

/-- Claim C9, witness for the amended theorem at a concrete input. -/
theorem c9_witness :
    MC.calculateSharesForBet 1 100 0 0 1 = 0 ∧
    0 < (if (1:ℕ) = 1 then (MC.calculatePrices 0 0 1).yesPrice
        else (MC.calculatePrices 0 0 1).noPrice) ∧
    ((MC.calculateMarketImpact 1 100 0 0 1).priceImpact = 1 ∧
     (MC.calculateMarketImpact 1 100 0 0 1).newPrice =
       (if (1:ℕ) = 1 then (MC.calculatePrices 0 0 1).yesPrice
        else (MC.calculatePrices 0 0 1).noPrice) ∧
     (MC.calculateMarketImpact 1 100 0 0 1).slippage = 0) := by
  have h0 := MC.calculateSharesForBet_empty 1 100 1
  have hp : (0:ℝ) < (if (1:ℕ) = 1 then (MC.calculatePrices 0 0 1).yesPrice
      else (MC.calculatePrices 0 0 1).noPrice) := by
    norm_num [MC.calculatePrices]
  exact ⟨h0, hp, c9_zero_share_impact 1 100 0 0 1 h0 hp⟩
